import Mathlib

/-!
Verification development for the secp256k1 public-key recovery routine of
`src/gossip/ECDSA/ECDSARecover.cc`.

The C++ code is shallowly embedded: CryptoPP `Integer` values become `ℤ`
(arbitrary-precision signed integers, exactly the CryptoPP semantics for the
operations used), `ECPPoint` becomes a structure with an identity flag and two
integer coordinates, exceptions become an `Except` error channel, and the
two exception types used by the source (`std::domain_error` and
`std::invalid_argument`) become the two constructors of `RecoverError`.
All recursion is fuel-based so that every definition is executable and
kernel-reducible; the fuel bounds are far above what 256-bit operands need.
-/

namespace ECDSARecover

/-- Error channel of the embedded code: `invalidSignature` models
`std::domain_error` (the spec's `InvalidSignature`), `invalidArgument` models
`std::invalid_argument` (the spec's `InvalidArgument`). Each carries the
exact message string thrown by the source. -/
inductive RecoverError where
  | invalidSignature : String → RecoverError
  | invalidArgument : String → RecoverError
deriving DecidableEq, Repr

/-- CryptoPP `ECPPoint`: an identity flag plus affine coordinates
(`ECPPoint()` is the identity, `ECPPoint(x, y)` has `identity = false`). -/
structure ECPPoint where
  identity : Bool
  x : ℤ
  y : ℤ
deriving DecidableEq, Repr

/-- secp256k1 field modulus p (source line 56). -/
def p : ℤ := 115792089237316195423570985008687907853269984665640564039457584007908834671663

/-- secp256k1 subgroup order n (source line 57). -/
def n : ℤ := 115792089237316195423570985008687907852837564279074904382605163141518161494337

/-- secp256k1 curve coefficient a = 0 (source line 54). -/
def a : ℤ := 0

/-- secp256k1 curve coefficient b = 7 (source line 55). -/
def b : ℤ := 7

/-- secp256k1 cofactor h = 1 (source line 53). -/
def h : ℤ := 1

/-- secp256k1 generator G (source line 58). -/
def G : ECPPoint :=
  ⟨false, 55066263022277343669578718895168534326250603453777594175500187360389116729240,
          32670510020758816978083085130507043184471273380659243275938904335757337482424⟩

/-- `ECP::Identity()`: the default-constructed point, identity flag set. -/
def ECPIdentity : ECPPoint := ⟨true, 0, 0⟩

/-- CryptoPP `ECPPoint::operator==`: both identities, or neither and the
coordinates agree. -/
def pointEq (P Q : ECPPoint) : Bool :=
  (P.identity && Q.identity) ||
  (!P.identity && !Q.identity && P.x == Q.x && P.y == Q.y)

/-- Fuel-based modular exponentiation on naturals (square-and-multiply on the
binary representation of the exponent); the invariant `base < m` is kept by
reducing the base at every step. -/
def powModFuel : ℕ → ℕ → ℕ → ℕ → ℕ
  | 0, _, _, m => 1 % m
  | fuel+1, base, e, m =>
      if e = 0 then 1 % m
      else
        let r := powModFuel fuel (base * base % m) (e / 2) m
        if e % 2 = 1 then r * base % m else r

/-- CryptoPP `a_exp_b_mod_c x e m` = `x ^ e mod m` (operands here are always
nonnegative with a positive modulus). Fuel 300 covers every exponent below
`2 ^ 300`; all exponents in this file are below `2 ^ 257`. -/
def a_exp_b_mod_c (x e m : ℤ) : ℤ :=
  ((powModFuel 300 ((x % m).toNat % m.toNat) e.toNat m.toNat : ℕ) : ℤ)

/-- Fuel-based extended Euclid. State `(r0, r1, s0, s1)` keeps the invariant
`s_i * x ≡ r_i (mod m)` for the initial call `egcdF fuel x m 1 0`; it returns
`(gcd, coefficient)`. Fuel 800 covers 256-bit operands (the worst case needs
about 370 steps). -/
def egcdF : ℕ → ℤ → ℤ → ℤ → ℤ → ℤ × ℤ
  | 0, r0, _, s0, _ => (r0, s0)
  | fuel+1, r0, r1, s0, s1 =>
      if r1 = 0 then (r0, s0)
      else egcdF fuel r1 (r0 % r1) s1 (s0 - (r0 / r1) * s1)

/-- CryptoPP `Integer::InverseMod m`: the multiplicative inverse in `[0, m)`
when the reduced argument is coprime to `m`, and `0` otherwise. -/
def InverseMod (x m : ℤ) : ℤ :=
  let g := egcdF 800 (x % m) m 1 0
  if g.1 = 1 then g.2 % m else 0

/-- CryptoPP `ECP::VerifyPoint` over the curve `ECP(p, a, b)`: the identity, or
coordinates in `[0, p)` satisfying the curve equation
`((x*x + a)*x + b - y*y) % p == 0`. -/
def VerifyPoint (P : ECPPoint) : Bool :=
  P.identity ||
  (decide (0 ≤ P.x) && decide (0 ≤ P.y) && decide (P.x < p) && decide (P.y < p) &&
   decide (((P.x * P.x + a) * P.x + b - P.y * P.y) % p = 0))

/-- CryptoPP `ECP::Double`: identity when the input is the identity or has
`y == 0`; otherwise the tangent-slope doubling with all field operations
reduced mod `p` (field division is multiplication by the modular inverse). -/
def ECPDouble (P : ECPPoint) : ECPPoint :=
  if P.identity || P.y == 0 then ECPIdentity
  else
    let t := ((3 * P.x * P.x + a) % p) * InverseMod ((2 * P.y) % p) p % p
    let x2 := (t * t - 2 * P.x) % p
    let y2 := (t * (P.x - x2) - P.y) % p
    ⟨false, x2, y2⟩

/-- CryptoPP `ECP::Add`: identity absorption, the equal-x case (double when the
points coincide, identity otherwise), and otherwise the chord-slope addition
with all field operations reduced mod `p`. -/
def ECPAdd (P Q : ECPPoint) : ECPPoint :=
  if P.identity then Q
  else if Q.identity then P
  else if P.x == Q.x then (if P.y == Q.y then ECPDouble P else ECPIdentity)
  else
    let t := ((Q.y - P.y) % p) * InverseMod ((Q.x - P.x) % p) p % p
    let x2 := (t * t - P.x - Q.x) % p
    let y2 := (t * (P.x - x2) - P.y) % p
    ⟨false, x2, y2⟩

/-- CryptoPP `ECP::Inverse` (point negation): the identity is fixed; otherwise
the `y`-coordinate is replaced by its additive field inverse. -/
def ECPNegate (P : ECPPoint) : ECPPoint :=
  if P.identity then P else ⟨false, P.x, if P.y == 0 then 0 else p - P.y⟩

/-- CryptoPP `AbstractGroup::Subtract` on `ECP`: add the negation. -/
def ECPSubtract (P Q : ECPPoint) : ECPPoint := ECPAdd P (ECPNegate Q)

/-- Jacobian doubling over `F_p` for the curve `y² = x³ + 7` (curve
coefficient a = 0), as CryptoPP's projective point arithmetic computes it:
`S = 4XY²`, `M = 3X²`, `X' = M² - 2S`, `Y' = M(S - X') - 8Y⁴`, `Z' = 2YZ`,
all mod `p`. A zero `Z` encodes the identity; a `y = 0` input correctly
doubles to the identity because `Z'` vanishes. -/
def jacDouble : ℤ × ℤ × ℤ → ℤ × ℤ × ℤ
  | (X1, Y1, Z1) =>
    let S := 4 * X1 * Y1 * Y1 % p
    let M := 3 * X1 * X1 % p
    let X2 := (M * M - 2 * S) % p
    let Y2 := (M * (S - X2) - 8 * Y1 * Y1 * Y1 * Y1) % p
    let Z2 := 2 * Y1 * Z1 % p
    (X2, Y2, Z2)

/-- Mixed Jacobian-plus-affine addition over `F_p`: add the affine point
`(x, y)` to a Jacobian point. The identity, equal-`x` (doubling) and
inverse-point cases are dispatched the way the projective provider does. -/
def jacAddAffine (Q : ℤ × ℤ × ℤ) (x y : ℤ) : ℤ × ℤ × ℤ :=
  match Q with
  | (X1, Y1, Z1) =>
    if Z1 % p = 0 then (x % p, y % p, 1)
    else
      let Z1Z1 := Z1 * Z1 % p
      let U2 := x * Z1Z1 % p
      let S2 := y * Z1 * Z1Z1 % p
      let H := (U2 - X1) % p
      let R := (S2 - Y1) % p
      if H = 0 then
        if R = 0 then jacDouble (X1, Y1, Z1) else (1, 1, 0)
      else
        let HH := H * H % p
        let HHH := H * HH % p
        let X3 := (R * R - HHH - 2 * X1 * HH) % p
        let Y3 := (R * (X1 * HH - X3) - Y1 * HHH) % p
        let Z3 := Z1 * H % p
        (X3, Y3, Z3)

/-- Normalization of a Jacobian point back to the affine `ECPPoint`
representation: the identity for `Z = 0`, otherwise `(X/Z², Y/Z³)` via one
modular inversion. -/
def jacToAffine : ℤ × ℤ × ℤ → ECPPoint
  | (X1, Y1, Z1) =>
    if Z1 % p = 0 then ECPIdentity
    else
      let zi := InverseMod Z1 p
      let zi2 := zi * zi % p
      ⟨false, X1 * zi2 % p, Y1 * zi2 * zi % p⟩

/-- Fuel-based double-and-add over the Jacobian operations, most significant
bit first; the added point is always the affine base point. -/
def jacMulFuel : ℕ → ℕ → ECPPoint → ℤ × ℤ × ℤ
  | 0, _, _ => (1, 1, 0)
  | fuel+1, k, P =>
      if k = 0 then (1, 1, 0)
      else
        let q := jacDouble (jacMulFuel fuel (k / 2) P)
        if k % 2 = 1 then jacAddAffine q P.x P.y else q

/-- CryptoPP `ECP::Multiply k P`: the k-fold group sum of `P`, computed — as
the provider does internally — in projective coordinates with one final
normalization (negative scalars multiply by the absolute value and negate).
Every scalar in this file is below `2 ^ 257`, well inside the fuel bound. -/
def ECPMultiply (k : ℤ) (P : ECPPoint) : ECPPoint :=
  if P.identity then ECPIdentity
  else if k < 0 then ECPNegate (jacToAffine (jacMulFuel 300 (-k).toNat P))
  else jacToAffine (jacMulFuel 300 k.toNat P)

/-- Fuel-based bit length: 0 for 0, otherwise one more than the bit length of
the half. (Equivalent to `Nat.log2 m + 1` for `m ≠ 0`, but structurally
recursive so that it evaluates by kernel reduction.) -/
def bitLenFuel : ℕ → ℕ → ℕ
  | 0, _ => 0
  | fuel+1, m => if m = 0 then 0 else bitLenFuel fuel (m / 2) + 1

/-- CryptoPP `Integer::BitCount`: 0 for 0, otherwise the index of the highest
set bit of the magnitude, plus one. -/
def BitCount (x : ℤ) : ℕ := bitLenFuel 600 x.natAbs

/-- Error message of source line 65. -/
def msgR : String := "Invalid signature. r exceeds group size.\n"

/-- Error message of source line 70. -/
def msgS : String := "Invalid signature. s exceeds group size.\n"

/-- Error message of source line 75. -/
def msgE : String := "Invalid signature. Message hash value out of range.\n"

/-- Error message of source line 84. -/
def msgX : String := "Invalid signature. Recovered R.x exceeds field modulus.\n"

/-- Error message of source line 106. -/
def msgNotOnCurve : String := "Recover Pub Key from Sig: Computed point is not on curve.\n"

/-- Error message of source line 126. -/
def msgQ : String := "Recover Pub Key from Sig: Calculated Q fails basic criteria.\n"

/-- Error message of source line 139. -/
def msgX1 : String := "x1 did not verify as a point on the curve.\n"

/-- Error message of source line 146. -/
def msgVerify : String := "Failed to recover pubkey from signature. Recovered key fails to verify signature\n"

/-- Candidate x-coordinate of loop iteration `i` (source line 82):
`x = r + i*n`. -/
def candX (r : ℤ) (i : ℕ) : ℤ := r + (i : ℤ) * n

/-- Candidate point of loop iteration `i` (source lines 89-97): `y² = x³ + 7
mod p`, `y` its square root `(y²)^((p+1)/4) mod p`, flipped to `p - y` when the
C++ test `(yBit % 2) ^ (y % 2)` is nonzero. C++ `%` on `int` is the truncated
remainder (`Int.tmod`), and for `yBit % 2 ∈ {-1, 0, 1}` and `y % 2 ∈ {0, 1}`
the xor is nonzero exactly when the two remainders differ. -/
def candPoint (r yBit : ℤ) (i : ℕ) : ECPPoint :=
  let x := candX r i
  let y2 := (x * x * x + 7) % p
  let expSqrt := (p + 1) / 4
  let y0 := a_exp_b_mod_c y2 expSqrt p
  let y := if yBit.tmod 2 ≠ y0.tmod 2 then p - y0 else y0
  ⟨false, x, y⟩

/-- The cofactor loop of source lines 81-109. Iteration `i` with fuel left:
fail if the candidate `x` exceeds `p` (strict test, line 83); otherwise build
the candidate point; `break` on the first candidate passing `VerifyPoint`
(the post-loop re-check of line 105 then trivially passes, so the candidate is
returned); otherwise keep the candidate in `R` and continue. When the loop
exhausts (`i = h + 1`), the post-loop check of line 105 runs on the last
stored `R` and throws when it is off-curve. -/
def recoverLoop (r yBit : ℤ) : ℕ → ℕ → ECPPoint → Except RecoverError ECPPoint
  | _, 0, R =>
      if VerifyPoint R then .ok R else .error (.invalidSignature msgNotOnCurve)
  | i, fuel+1, _ =>
      if candX r i > p then .error (.invalidSignature msgX)
      else
        let R2 := candPoint r yBit i
        if VerifyPoint R2 then .ok R2
        else recoverLoop r yBit (i+1) fuel R2

/-- Point recovery from `r` and the recovery id: the cofactor loop starting at
`i = 0` with `h + 1` iterations and `R` initialized off-curve to `(1, 1)`
(source line 59). -/
def recoverR (r yBit : ℤ) : Except RecoverError ECPPoint :=
  recoverLoop r yBit 0 (h + 1).toNat ⟨false, 1, 1⟩

/-- Lowercase hex digit for a value below 16 (CryptoPP prints hex lowercase
under plain `std::hex`). -/
def hexChar (d : ℕ) : Char :=
  if d < 10 then Char.ofNat (48 + d) else Char.ofNat (87 + d)

/-- Big-endian hex digits of `m` (empty for 0); fuel-based on the number of
digits. -/
def natToHexAux : ℕ → ℕ → List Char
  | 0, _ => []
  | fuel+1, m => if m = 0 then [] else natToHexAux fuel (m / 16) ++ [hexChar (m % 16)]

/-- Hex rendering of a CryptoPP `Integer` under `std::hex` with the trailing
base tag stripped (source lines 166-170): minimal-width lowercase hex, `"0"`
for zero. -/
def natToHex (m : ℕ) : String :=
  if m = 0 then "0" else String.mk (natToHexAux 300 m)

/-- `std::setw(64)` with `std::setfill('0')` on a stringstream: left-pad with
zeros up to width 64; longer strings pass unchanged (source lines 171-172). -/
def padTo64 (str : String) : String :=
  if str.length < 64 then String.mk (List.replicate (64 - str.length) '0') ++ str
  else str

/-- Output serialization of source lines 166-173: padded hex of `Q.x` followed
by padded hex of `Q.y`. -/
def encodePoint (Q : ECPPoint) : String :=
  padTo64 (natToHex Q.x.toNat) ++ padTo64 (natToHex Q.y.toNat)

/-- Core recovery function `recoverPubKeyFromSig(Integer e, Integer r,
Integer s, int yBit)` of source lines 45-174, as a direct translation:
the three input range checks, the cofactor loop, the key derivation
`Q = r⁻¹(sR - eG)`, the basic key criteria check of line 125 (note: the
source multiplies `Q` by `p`, the field modulus), the from-scratch signature
reverification of lines 131-149, and the hex serialization. -/
def recoverPubKeyFromSig (e r s yBit : ℤ) : Except RecoverError String :=
  if r > n ∨ r < 0 then .error (.invalidSignature msgR)
  else if s > n ∨ s < 0 then .error (.invalidSignature msgS)
  else if BitCount e > 256 ∨ e < 0 then .error (.invalidSignature msgE)
  else
    match recoverR r yBit with
    | .error err => .error err
    | .ok R =>
      let sR := ECPMultiply s R
      let eG := ECPMultiply e G
      let sR_eG := ECPSubtract sR eG
      let rInv := InverseMod r n
      let Q := ECPMultiply rInv sR_eG
      if pointEq Q ECPIdentity || pointEq (ECPMultiply p Q) ECPIdentity || !(VerifyPoint Q)
      then .error (.invalidSignature msgQ)
      else
        let w := InverseMod s n
        let u1 := e * w % n
        let u2 := r * w % n
        let u1G := ECPMultiply u1 G
        let u2Q := ECPMultiply u2 Q
        let X1 := ECPAdd u1G u2Q
        if !(VerifyPoint X1) then .error (.invalidSignature msgX1)
        else
          let x1 := X1.x % n
          if r ≠ x1 then .error (.invalidSignature msgVerify)
          else .ok (encodePoint Q)

/-- Hex/decimal digit value of a character, `none` for non-digits. -/
def digitVal (c : Char) : Option ℕ :=
  if 48 ≤ c.toNat ∧ c.toNat ≤ 57 then some (c.toNat - 48)
  else if 97 ≤ c.toNat ∧ c.toNat ≤ 102 then some (c.toNat - 87)
  else if 65 ≤ c.toNat ∧ c.toNat ≤ 70 then some (c.toNat - 55)
  else none

/-- Accumulate digits in the given base, stopping at the first invalid
character. -/
def parseDigits : List Char → ℕ → ℕ → ℕ
  | [], _, acc => acc
  | c :: cs, base, acc =>
      match digitVal c with
      | some v => if v < base then parseDigits cs base (acc * base + v) else acc
      | none => acc

/-- Modelled from the spec: the textual entry point accepts digest, r and s
"as decimal or hexadecimal textual big integers" (spec section 6); this models
the external big-integer collaborator's string constructor (CryptoPP
`Integer(const char*)`): an optional leading minus sign, hexadecimal when the
string ends in `h`/`H` or starts with `0x`, decimal otherwise. -/
def parseCryptoInt (str : String) : ℤ :=
  let cs := str.data
  let sign : Bool := match cs with | c :: _ => c == '-' | [] => false
  let cs1 := if sign then cs.drop 1 else cs
  let isHexTag : Bool := match cs1.getLast? with | some c => c == 'h' || c == 'H' | none => false
  let isHexPre : Bool := match cs1 with | c0 :: c1 :: _ => c0 == '0' && (c1 == 'x' || c1 == 'X') | _ => false
  let v : ℕ :=
    if isHexTag then parseDigits cs1.dropLast 16 0
    else if isHexPre then parseDigits (cs1.drop 2) 16 0
    else parseDigits cs1 10 0
  if sign then -(v : ℤ) else (v : ℤ)

/-- Textual entry point `recoverPubKeyFromSig(string, string, string, int)` of
source lines 232-260: reject empty inputs or a recovery id outside `[0, 3]`
with `std::invalid_argument`, otherwise parse the three integers and run the
core (the catch-and-rethrow blocks are identity on the error channel). -/
def recoverPubKeyFromSigStr (msgHash sig_r sig_s : String) (yBit : ℤ) :
    Except RecoverError String :=
  if msgHash.isEmpty ∨ sig_r.isEmpty ∨ sig_s.isEmpty ∨ yBit > 3 ∨ yBit < 0
  then .error (.invalidArgument "Empty string or invalid yBit value.\n")
  else recoverPubKeyFromSig (parseCryptoInt msgHash) (parseCryptoInt sig_r)
        (parseCryptoInt sig_s) yBit

/-- Modelled from the spec: the CryptoPP Base32 wire alphabet (an external
collaborator; CryptoPP uses this 32-character alphabet, decoded
case-insensitively, and skips characters outside it). -/
def base32Alphabet : List Char := "ABCDEFGHIJKMNPQRSTUVWXYZ23456789".data

/-- Index of a character in a list, or `none`. -/
def charIndex : List Char → Char → ℕ → Option ℕ
  | [], _, _ => none
  | c0 :: rest, c, i => if c0 == c then some i else charIndex rest c (i+1)

/-- Base32 value of one character (case-insensitive), `none` when the
character is not in the alphabet. -/
def base32CharVal (c : Char) : Option ℕ := charIndex base32Alphabet c.toUpper 0

/-- The five bits of a Base32 value, most significant first. -/
def bits5 (v : ℕ) : List Bool :=
  [v / 16 % 2 == 1, v / 8 % 2 == 1, v / 4 % 2 == 1, v / 2 % 2 == 1, v % 2 == 1]

/-- Bit stream of a Base32 text: five bits per recognized character,
unrecognized characters skipped. -/
def base32Bits : List Char → List Bool
  | [] => []
  | c :: cs =>
      (match base32CharVal c with | some v => bits5 v | none => []) ++ base32Bits cs

/-- Value of one bit. -/
def bitVal (x : Bool) : ℕ := cond x 1 0

/-- Pack a bit stream into bytes, eight bits per byte most significant first;
a trailing group of fewer than eight bits is dropped (as the streaming decoder
does). -/
def bitsToBytes : List Bool → List ℕ
  | b0 :: b1 :: b2 :: b3 :: b4 :: b5 :: b6 :: b7 :: rest =>
      (128 * bitVal b0 + 64 * bitVal b1 + 32 * bitVal b2 + 16 * bitVal b3 +
       8 * bitVal b4 + 4 * bitVal b5 + 2 * bitVal b6 + bitVal b7) :: bitsToBytes rest
  | _ => []

/-- Modelled from the spec: Base32 text "decoding to ... raw bytes"
(spec section 6) through the external decoder collaborator. The decoded byte
count is `MaxRetrievable()` in the source. -/
def base32DecodeBytes (str : String) : List ℕ :=
  bitsToBytes (base32Bits str.data)

/-- The 32-byte stack buffer `tmp` after `Get(tmp, 32)`: the first
`min 32 size` bytes come from the decoder, the rest keep whatever was in the
uninitialized stack memory, modelled by the byte oracle `junk`. -/
def buf32 (decoded : List ℕ) (junk : ℕ → ℕ) : List ℕ :=
  decoded.take 32 ++ (List.range (32 - min decoded.length 32)).map (fun i => junk i % 256)

/-- CryptoPP `Integer::Decode` of a byte string: big-endian unsigned. -/
def beDecode (bytes : List ℕ) : ℤ :=
  bytes.foldl (fun acc v => acc * 256 + (v : ℤ)) 0

/-- Base32 entry point `recoverPubKeyFromSig_Base32` of source lines 262-330.
Each of the three inputs is Base32-decoded; the source's size test
`if (size && size <= SIZE_MAX)` has a vacuous second conjunct (a `word64`
never exceeds the 64-bit `SIZE_MAX`), so only emptiness is rejected, with
`std::invalid_argument`. `Get(tmp, 32)` then reads up to 32 bytes into the
uninitialized 32-byte stack buffer (its leftover contents are the `junk`
oracles) and `Decode(tmp, 32)` always consumes 32 bytes. No recovery id
validation is performed; the core is called directly. -/
def recoverPubKeyFromSig_Base32 (junkE junkR junkS : ℕ → ℕ)
    (msgHash sig_r sig_s : String) (yBit : ℤ) : Except RecoverError String :=
  let dE := base32DecodeBytes msgHash
  if dE.length = 0 then
    .error (.invalidArgument "Invalid sized msg hash to recoverPubkeyFromSig\n")
  else
    let e := beDecode (buf32 dE junkE)
    let dR := base32DecodeBytes sig_r
    if dR.length = 0 then
      .error (.invalidArgument "Invalid sized sig_r to recoverPubkeyFromSig\n")
    else
      let r := beDecode (buf32 dR junkR)
      let dS := base32DecodeBytes sig_s
      if dS.length = 0 then
        .error (.invalidArgument "Invalid sized sig_s to recoverPubkeyFromSig\n")
      else
        let s := beDecode (buf32 dS junkS)
        recoverPubKeyFromSig e r s yBit

/-- Classifier: is the result one of the three input-validation failures of
source lines 64-78 (the failures issued before any curve arithmetic)? -/
def isValidationError : Except RecoverError String → Bool
  | .error (.invalidSignature m) => m == msgR || m == msgS || m == msgE
  | _ => false

/-- Classifier: is the result an `InvalidArgument` (`std::invalid_argument`)
failure? -/
def isInvalidArg : Except RecoverError String → Bool
  | .error (.invalidArgument _) => true
  | _ => false

/-- Spec-side point recoverer, written from the wording of the claim: examine
candidates `x = r + i*n` for `i = 0 .. h` in increasing order; fail when a
candidate `x` exceeds the field modulus; accept the candidate point (square
root with parity flip) at the first `i` for which it is on the curve; fail
when no `i` in `[0, h]` yields an on-curve point. -/
def specPointRecoverer (r yBit : ℤ) : ℕ → ℕ → Except RecoverError ECPPoint
  | _, 0 => .error (.invalidSignature msgNotOnCurve)
  | i, fuel+1 =>
      if candX r i > p then .error (.invalidSignature msgX)
      else if VerifyPoint (candPoint r yBit i) then .ok (candPoint r yBit i)
      else specPointRecoverer r yBit (i+1) fuel

/-! ## Helper lemmas -/

theorem recoverLoop_zero (r yBit : ℤ) (R : ECPPoint) :
    recoverLoop r yBit 0 2 R =
      (if candX r 0 > p then .error (.invalidSignature msgX)
       else if VerifyPoint (candPoint r yBit 0) then .ok (candPoint r yBit 0)
       else if candX r 1 > p then .error (.invalidSignature msgX)
       else if VerifyPoint (candPoint r yBit 1) then .ok (candPoint r yBit 1)
       else .error (.invalidSignature msgNotOnCurve)) := by
  show (if candX r 0 > p then _
        else
          let R2 := candPoint r yBit 0
          if VerifyPoint R2 then Except.ok R2 else recoverLoop r yBit 1 1 R2) = _
  by_cases h0 : candX r 0 > p
  · simp only [if_pos h0]
  · simp only [if_neg h0]
    by_cases hv0 : VerifyPoint (candPoint r yBit 0)
    · simp only [if_pos hv0]
    · simp only [if_neg hv0]
      show (if candX r 1 > p then _
            else
              let R2 := candPoint r yBit 1
              if VerifyPoint R2 then Except.ok R2 else recoverLoop r yBit 2 0 R2) = _
      by_cases h1 : candX r 1 > p
      · simp only [if_pos h1]
      · simp only [if_neg h1]
        by_cases hv1 : VerifyPoint (candPoint r yBit 1)
        · simp only [if_pos hv1]
        · simp only [if_neg hv1]
          show (if VerifyPoint (candPoint r yBit 1) then Except.ok (candPoint r yBit 1)
                else Except.error (RecoverError.invalidSignature msgNotOnCurve)) = _
          simp only [if_neg hv1]

theorem recoverR_eq (r yBit : ℤ) :
    recoverR r yBit =
      (if candX r 0 > p then .error (.invalidSignature msgX)
       else if VerifyPoint (candPoint r yBit 0) then .ok (candPoint r yBit 0)
       else if candX r 1 > p then .error (.invalidSignature msgX)
       else if VerifyPoint (candPoint r yBit 1) then .ok (candPoint r yBit 1)
       else .error (.invalidSignature msgNotOnCurve)) :=
  recoverLoop_zero r yBit ⟨false, 1, 1⟩

theorem recoverR_ok_cases (r yBit : ℤ) (R : ECPPoint)
    (hok : recoverR r yBit = .ok R) :
    (R = candPoint r yBit 0 ∧ VerifyPoint R = true) ∨
    (R = candPoint r yBit 1 ∧ VerifyPoint R = true) := by
  rw [recoverR_eq] at hok
  split_ifs at hok with h0 hv0 h1 hv1
  · exact Or.inl ⟨(Except.ok.injEq _ _).mp hok ▸ rfl, by
      cases hok; exact hv0⟩
  · exact Or.inr ⟨(Except.ok.injEq _ _).mp hok ▸ rfl, by
      cases hok; exact hv1⟩

theorem recoverR_error_msg (r yBit : ℤ) (err : RecoverError)
    (herr : recoverR r yBit = .error err) :
    err = .invalidSignature msgX ∨ err = .invalidSignature msgNotOnCurve := by
  rw [recoverR_eq] at herr
  split_ifs at herr <;> cases herr <;> simp

theorem powModFuel_lt (fuel base e m : ℕ) (hm : 0 < m) :
    powModFuel fuel base e m < m := by
  induction fuel generalizing base e with
  | zero => exact Nat.mod_lt _ hm
  | succ fuel ih =>
      show (if e = 0 then 1 % m
            else
              let r := powModFuel fuel (base * base % m) (e / 2) m
              if e % 2 = 1 then r * base % m else r) < m
      split_ifs
      · exact Nat.mod_lt _ hm
      · exact Nat.mod_lt _ hm
      · exact ih _ _

theorem a_exp_b_mod_c_nonneg (x e m : ℤ) : 0 ≤ a_exp_b_mod_c x e m :=
  Int.ofNat_nonneg _

theorem a_exp_b_mod_c_lt_p (x e : ℤ) : a_exp_b_mod_c x e p < p := by
  have hp : (0 : ℕ) < p.toNat := by decide
  have := powModFuel_lt 300 ((x % p).toNat % p.toNat) e.toNat p.toNat hp
  have hcast : ((powModFuel 300 ((x % p).toNat % p.toNat) e.toNat p.toNat : ℕ) : ℤ) <
      ((p.toNat : ℕ) : ℤ) := Int.ofNat_lt.mpr this
  calc a_exp_b_mod_c x e p = _ := rfl
    _ < ((p.toNat : ℕ) : ℤ) := hcast
    _ = p := by decide

/-! ## Claim theorems -/

/-- C7: the cofactor loop of the point recoverer (source lines 81-109)
examines candidates `x = r + i*n` for `i = 0, 1, ..., h` in increasing order,
fails with `InvalidSignature` when an examined candidate `x` exceeds the field
modulus, forms `y` as `(x³+7)^((p+1)/4) mod p` with the complementary root
`p - y` chosen on a parity mismatch against `yBit`, accepts the first on-curve
candidate, and fails with `InvalidSignature` when no `i` in `[0, h]` yields an
on-curve point: it equals the first-success search written from the claim. -/
theorem pointRecoverer_follows_spec (r yBit : ℤ) :
    recoverR r yBit = specPointRecoverer r yBit 0 2 := by
  rw [recoverR_eq]
  show _ = (if candX r 0 > p then Except.error (RecoverError.invalidSignature msgX)
            else if VerifyPoint (candPoint r yBit 0) then Except.ok (candPoint r yBit 0)
            else specPointRecoverer r yBit 1 1)
  by_cases h0 : candX r 0 > p
  · simp only [if_pos h0]
  · simp only [if_neg h0]
    by_cases hv0 : VerifyPoint (candPoint r yBit 0)
    · simp only [if_pos hv0]
    · simp only [if_neg hv0]
      show _ = (if candX r 1 > p then Except.error (RecoverError.invalidSignature msgX)
                else if VerifyPoint (candPoint r yBit 1) then Except.ok (candPoint r yBit 1)
                else specPointRecoverer r yBit 2 0)
      rfl

/-- The 32-byte buffer is independent of the ambient memory oracle exactly
when the decoder produced a full 32 bytes. -/
theorem buf32_full (d : List ℕ) (j : ℕ → ℕ) (hd : d.length = 32) :
    buf32 d j = d.take 32 := by
  unfold buf32
  rw [hd]
  simp

/-- C3 amended: the recovery operation fails before any curve arithmetic (that
is, with one of the three input-validation errors of source lines 64-78)
exactly when `r > n`, `r < 0`, `s > n`, `s < 0`, or the digest is out of range.
The strict comparisons mean the boundary values `r = 0`, `s = 0`, `r = n`,
`s = n` pass the input validator. -/
theorem validation_exactly_strict (e r s yBit : ℤ) :
    isValidationError (recoverPubKeyFromSig e r s yBit) = true ↔
      (r > n ∨ r < 0) ∨ (s > n ∨ s < 0) ∨ (BitCount e > 256 ∨ e < 0) := by
  unfold recoverPubKeyFromSig
  by_cases h1 : r > n ∨ r < 0
  · rw [if_pos h1]
    exact iff_of_true (by decide) (Or.inl h1)
  · rw [if_neg h1]
    by_cases h2 : s > n ∨ s < 0
    · rw [if_pos h2]
      exact iff_of_true (by decide) (Or.inr (Or.inl h2))
    · rw [if_neg h2]
      by_cases h3 : BitCount e > 256 ∨ e < 0
      · rw [if_pos h3]
        exact iff_of_true (by decide) (Or.inr (Or.inr h3))
      · rw [if_neg h3]
        refine iff_of_false ?_ (by tauto)
        cases hR : recoverR r yBit with
        | error err =>
            simp only [hR]
            rcases recoverR_error_msg r yBit err hR with hmsg | hmsg <;>
              subst hmsg <;> decide
        | ok R =>
            simp only [hR]
            split_ifs <;> simp only [isValidationError] <;> decide

deriving instance DecidableEq for Except

set_option maxRecDepth 40000 in
/-- C3 counterexample: at `(e, r, s, yBit) = (1, 0, 1, 0)` the input `r = 0`
is not rejected by the input validator; the pipeline proceeds into curve
arithmetic (it ultimately fails much later, at the derived-key criteria
check), refuting the claim that `r = 0` fails with `InvalidSignature` before
any curve arithmetic. -/
theorem validation_r_zero_counterexample :
    isValidationError (recoverPubKeyFromSig 1 0 1 0) = false ∧
    recoverPubKeyFromSig 1 0 1 0 = .error (.invalidSignature msgQ) := by
  exact ⟨by decide, by decide⟩

/-- C4 amended: the textual entry point rejects every recovery id outside
`[0, 3]` with `InvalidArgument` (source lines 232-234); the Base32 entry
point, by contrast, performs no recovery-id validation at all. -/
theorem textual_entry_rejects_bad_yBit (mh rr ss : String) (yBit : ℤ)
    (hy : yBit > 3 ∨ yBit < 0) :
    recoverPubKeyFromSigStr mh rr ss yBit =
      .error (.invalidArgument "Empty string or invalid yBit value.\n") := by
  unfold recoverPubKeyFromSigStr
  rw [if_pos (Or.inr (Or.inr (Or.inr hy)))]

/-- C4 amended, witness at `yBit = 5`. -/
theorem textual_entry_rejects_bad_yBit_witness :
    ((5 : ℤ) > 3 ∨ (5 : ℤ) < 0) ∧
    recoverPubKeyFromSigStr "a" "b" "c" 5 =
      .error (.invalidArgument "Empty string or invalid yBit value.\n") :=
  ⟨by decide, textual_entry_rejects_bad_yBit "a" "b" "c" 5 (by decide)⟩

/-- 52 Base32 characters decoding to 32 zero bytes. -/
def a52 : String := "AAAAAAAAAAAAAAAAAAAAAAAAAAAAAAAAAAAAAAAAAAAAAAAAAAAA"

/-- 52 Base32 characters decoding to 32 `0xff` bytes (value `2^256 - 1`). -/
def nine52 : String := "9999999999999999999999999999999999999999999999999999"

set_option maxRecDepth 40000 in
/-- C4 counterexample: the Base32 entry point called with the out-of-range
recovery id `yBit = 4` does not fail with `InvalidArgument`; it forwards the
decoded integers straight to the core, which fails with `InvalidSignature`
(here: the decoded `r = 2^256 - 1` exceeds the group order). -/
theorem base32_bad_yBit_counterexample :
    recoverPubKeyFromSig_Base32 (fun _ => 0) (fun _ => 0) (fun _ => 0)
        a52 nine52 a52 4 = .error (.invalidSignature msgR) ∧
    isInvalidArg (recoverPubKeyFromSig_Base32 (fun _ => 0) (fun _ => 0) (fun _ => 0)
        a52 nine52 a52 4) = false := by
  exact ⟨by decide, by decide⟩

set_option maxRecDepth 40000 in
/-- C5: the Base32 entry point's size test only rejects empty decodes — the
source condition `size && size <= SIZE_MAX` has a vacuous second conjunct —
so an input decoding to 5 bytes (not 32) is not rejected with
`InvalidArgument`; the pipeline runs on a partially uninitialized buffer and
any failure it reports is an `InvalidSignature` from deep inside the curve
arithmetic (here, with zeroed ambient memory, the derived-key criteria
check). -/
theorem base32_short_decode_not_rejected :
    (base32DecodeBytes "AAAAAAAA").length = 5 ∧
    isInvalidArg (recoverPubKeyFromSig_Base32 (fun _ => 0) (fun _ => 0) (fun _ => 0)
        "AAAAAAAA" a52 a52 0) = false ∧
    recoverPubKeyFromSig_Base32 (fun _ => 0) (fun _ => 0) (fun _ => 0)
        "AAAAAAAA" a52 a52 0 = .error (.invalidSignature msgQ) := by
  exact ⟨by decide, by decide, by decide⟩

/-- Inversion of a successful run of the core: the output is the encoding of
the derived key `Q`, which passed the basic criteria check and the
from-scratch reverification of source lines 131-149. -/
theorem recover_ok_inv (e r s yBit : ℤ) (out : String)
    (hok : recoverPubKeyFromSig e r s yBit = .ok out) :
    ∃ Q : ECPPoint,
      out = encodePoint Q ∧
      pointEq Q ECPIdentity = false ∧
      VerifyPoint Q = true ∧
      VerifyPoint (ECPAdd (ECPMultiply (e * InverseMod s n % n) G)
                          (ECPMultiply (r * InverseMod s n % n) Q)) = true ∧
      (ECPAdd (ECPMultiply (e * InverseMod s n % n) G)
              (ECPMultiply (r * InverseMod s n % n) Q)).x % n = r := by
  unfold recoverPubKeyFromSig at hok
  by_cases h1 : r > n ∨ r < 0
  · rw [if_pos h1] at hok; exact absurd hok (by simp)
  rw [if_neg h1] at hok
  by_cases h2 : s > n ∨ s < 0
  · rw [if_pos h2] at hok; exact absurd hok (by simp)
  rw [if_neg h2] at hok
  by_cases h3 : BitCount e > 256 ∨ e < 0
  · rw [if_pos h3] at hok; exact absurd hok (by simp)
  rw [if_neg h3] at hok
  cases hR : recoverR r yBit with
  | error err => rw [hR] at hok; exact absurd hok (by simp)
  | ok R =>
      rw [hR] at hok
      simp only [] at hok
      split_ifs at hok with hq hx1 hr2
      injection hok with hout
      simp only [Bool.or_eq_true, not_or, Bool.not_eq_true,
        Bool.not_eq_true', Bool.not_eq_false, not_not] at hq hx1 hr2
      obtain ⟨⟨hqid, hqp⟩, hqv⟩ := hq
      exact ⟨_, hout.symm, hqid, hqv, hx1, hr2.symm⟩

/-- C2: every successful run returns the encoding of a key `Q` that satisfies
the ECDSA verification equation recomputed by the reverifier: with
`w = s⁻¹ mod n`, `u1 = e·w mod n`, `u2 = r·w mod n`, the point
`X1 = u1·G + u2·Q` is on the curve and `X1.x mod n = r`. In particular no
recovery id — correct or sibling — can silently return a key that does not
verify the signature. -/
theorem recovered_key_verifies (e r s yBit : ℤ) (out : String)
    (hok : recoverPubKeyFromSig e r s yBit = .ok out) :
    ∃ Q : ECPPoint,
      out = encodePoint Q ∧
      VerifyPoint (ECPAdd (ECPMultiply (e * InverseMod s n % n) G)
                          (ECPMultiply (r * InverseMod s n % n) Q)) = true ∧
      (ECPAdd (ECPMultiply (e * InverseMod s n % n) G)
              (ECPMultiply (r * InverseMod s n % n) Q)).x % n = r := by
  obtain ⟨Q, hQ1, _, _, hQ4, hQ5⟩ := recover_ok_inv e r s yBit out hok
  exact ⟨Q, hQ1, hQ4, hQ5⟩

/-- Digest of the concrete test vector documented in source lines 176-183. -/
def eTV : ℤ := 0xfcde2b2edba56bf408601fb721fe9b5c338d10ee429ea04fae5511b68fbf8fb9

/-- Signature r of the concrete test vector (source lines 176-183). -/
def rTV : ℤ := 73822833206246044331228008262087004113076292229679808334250850393445001014761

/-- Signature s of the concrete test vector (source lines 176-183). -/
def sTV : ℤ := 58995174607243353628346858794753620798088291196940745194581481841927132845752

/-- Output of the recovery operation on the test vector with recovery id 0. -/
def outTV : String := "8cb92207b3b161259add8e83d22ff18136039a19e3e53f7bb9cb836646bec8f8ae93ccdca532a23c88d74b3f6415dccf989ea248fca4c2bd61baa40a00e1a1ee"

set_option maxRecDepth 400000 in
/-- C2 witness: the reverification property at the source's own test vector
with recovery id 0, on which the operation succeeds. -/
theorem recovered_key_verifies_witness :
    ∃ Q : ECPPoint,
      outTV = encodePoint Q ∧
      VerifyPoint (ECPAdd (ECPMultiply (eTV * InverseMod sTV n % n) G)
                          (ECPMultiply (rTV * InverseMod sTV n % n) Q)) = true ∧
      (ECPAdd (ECPMultiply (eTV * InverseMod sTV n % n) G)
              (ECPMultiply (rTV * InverseMod sTV n % n) Q)).x % n = rTV :=
  recovered_key_verifies eTV rTV sTV 0 outTV (by decide)

/-! ## Encoding lemmas -/

/-- Hex-digit predicate on characters: a decimal digit or a letter in
`a`-`f` or `A`-`F`. -/
def isHexDigitChar (c : Char) : Bool :=
  (decide ('0' ≤ c) && decide (c ≤ '9')) ||
  (decide ('a' ≤ c) && decide (c ≤ 'f')) ||
  (decide ('A' ≤ c) && decide (c ≤ 'F'))

theorem strLen_data (s0 : String) : s0.length = s0.data.length := rfl

theorem strData_append (s0 t0 : String) : (s0 ++ t0).data = s0.data ++ t0.data := rfl

theorem strData_mk (l : List Char) : (String.mk l).data = l := rfl

theorem pointEq_identity (Q : ECPPoint) : pointEq Q ECPIdentity = Q.identity := by
  cases hq : Q.identity <;> simp [pointEq, ECPIdentity, hq]

theorem VerifyPoint_range (Q : ECPPoint) (hid : Q.identity = false)
    (hv : VerifyPoint Q = true) :
    0 ≤ Q.x ∧ Q.x < p ∧ 0 ≤ Q.y ∧ Q.y < p := by
  simp [VerifyPoint, hid] at hv
  tauto

theorem natToHexAux_length (fuel : ℕ) :
    ∀ m k : ℕ, m < 16 ^ k → k ≤ fuel → (natToHexAux fuel m).length ≤ k := by
  induction fuel with
  | zero => intro m k _ _; simp [natToHexAux]
  | succ fuel ih =>
      intro m k hm hk
      show (if m = 0 then [] else natToHexAux fuel (m / 16) ++ [hexChar (m % 16)]).length ≤ k
      split_ifs with h0
      · simp
      · have hkpos : 0 < k := by
          rcases Nat.eq_zero_or_pos k with hk0 | hkp
          · subst hk0; simp at hm; omega
          · exact hkp
        have hpow : 16 ^ k = 16 ^ (k - 1) * 16 := by
          conv_lhs => rw [show k = (k - 1) + 1 by omega]
          rw [pow_succ]
        have hdiv : m / 16 < 16 ^ (k - 1) := by
          rw [Nat.div_lt_iff_lt_mul (by norm_num : 0 < 16)]
          omega
        have hlen := ih (m / 16) (k - 1) hdiv (by omega)
        simp only [List.length_append, List.length_cons, List.length_nil]
        omega

theorem natToHex_length (m : ℕ) (hm : m < 16 ^ 64) : (natToHex m).length ≤ 64 := by
  unfold natToHex
  split_ifs with h0
  · decide
  · rw [strLen_data, strData_mk]
    exact natToHexAux_length 300 m 64 hm (by omega)

theorem padTo64_length (s0 : String) (hs : s0.length ≤ 64) : (padTo64 s0).length = 64 := by
  unfold padTo64
  split_ifs with hlt
  · rw [strLen_data, strData_append, List.length_append, strData_mk,
      List.length_replicate]
    have := strLen_data s0
    omega
  · omega

theorem encodePoint_length (Q : ECPPoint) (hx : Q.x.toNat < 16 ^ 64)
    (hy : Q.y.toNat < 16 ^ 64) : (encodePoint Q).length = 128 := by
  unfold encodePoint
  rw [strLen_data, strData_append, List.length_append, ← strLen_data, ← strLen_data,
    padTo64_length _ (natToHex_length _ hx), padTo64_length _ (natToHex_length _ hy)]

theorem hexChar_isHexDigit (d : ℕ) (hd : d < 16) : isHexDigitChar (hexChar d) = true := by
  interval_cases d <;> decide

theorem natToHexAux_hex (fuel : ℕ) :
    ∀ m c, c ∈ natToHexAux fuel m → isHexDigitChar c = true := by
  induction fuel with
  | zero => intro m c hc; simp [natToHexAux] at hc
  | succ fuel ih =>
      intro m c hc
      rw [show natToHexAux (fuel+1) m =
        if m = 0 then [] else natToHexAux fuel (m / 16) ++ [hexChar (m % 16)] from rfl] at hc
      split_ifs at hc with h0
      · simp at hc
      · rcases List.mem_append.mp hc with hrec | hone
        · exact ih _ _ hrec
        · have hce : c = hexChar (m % 16) := by simpa using hone
          subst hce
          exact hexChar_isHexDigit _ (Nat.mod_lt _ (by norm_num))

theorem natToHex_hex (m : ℕ) (c : Char) (hc : c ∈ (natToHex m).data) :
    isHexDigitChar c = true := by
  unfold natToHex at hc
  split_ifs at hc with h0
  · have hd : ("0" : String).data = ['0'] := rfl
    rw [hd] at hc
    simp at hc
    subst hc; decide
  · rw [strData_mk] at hc
    exact natToHexAux_hex 300 m c hc

theorem padTo64_chars (s0 : String) (c : Char) (hc : c ∈ (padTo64 s0).data) :
    c ∈ s0.data ∨ c = '0' := by
  unfold padTo64 at hc
  split_ifs at hc with hlt
  · rw [strData_append, strData_mk] at hc
    rcases List.mem_append.mp hc with hrep | hs
    · exact Or.inr (List.eq_of_mem_replicate hrep)
    · exact Or.inl hs
  · exact Or.inl hc

theorem encodePoint_hex (Q : ECPPoint) (c : Char) (hc : c ∈ (encodePoint Q).data) :
    isHexDigitChar c = true := by
  unfold encodePoint at hc
  rw [strData_append] at hc
  rcases List.mem_append.mp hc with hcc | hcc <;>
    rcases padTo64_chars _ _ hcc with hcd | hcd <;>
      first
        | exact natToHex_hex _ _ hcd
        | (subst hcd; decide)

/-- C8: every successful run returns exactly 128 hexadecimal characters with
no separators: the hex of `Q.x` left-padded with zeros to 64 digits, followed
by the hex of `Q.y` left-padded with zeros to 64 digits. -/
theorem output_fixed_width (e r s yBit : ℤ) (out : String)
    (hok : recoverPubKeyFromSig e r s yBit = .ok out) :
    ∃ Q : ECPPoint,
      out = padTo64 (natToHex Q.x.toNat) ++ padTo64 (natToHex Q.y.toNat) ∧
      out.length = 128 ∧
      ∀ c ∈ out.data, isHexDigitChar c = true := by
  obtain ⟨Q, hQ1, hid, hvp, _, _⟩ := recover_ok_inv e r s yBit out hok
  rw [pointEq_identity] at hid
  obtain ⟨hx0, hxp, hy0, hyp⟩ := VerifyPoint_range Q hid hvp
  have hpN : p.toNat < 16 ^ 64 := by decide
  have hxN : Q.x.toNat < 16 ^ 64 := by omega
  have hyN : Q.y.toNat < 16 ^ 64 := by omega
  refine ⟨Q, by rw [hQ1]; rfl, ?_, ?_⟩
  · rw [hQ1]; exact encodePoint_length Q hxN hyN
  · rw [hQ1]; intro c hc; exact encodePoint_hex Q c hc

/-- Input digest for the small synthetic success instance: with `d = 1`,
`k = 1` the pair `(r, s) = (G.x, 1)` is a valid signature of
`e = n - G.x + 1` under the public key `G`. -/
def eSyn : ℤ := n - G.x + 1

set_option maxRecDepth 400000 in
/-- C8 witness: the fixed-width output property at a concrete succeeding
input (the synthetic signature whose recovered key is the generator). -/
theorem output_fixed_width_witness :
    ∃ Q : ECPPoint,
      encodePoint G = padTo64 (natToHex Q.x.toNat) ++ padTo64 (natToHex Q.y.toNat) ∧
      (encodePoint G).length = 128 ∧
      ∀ c ∈ (encodePoint G).data, isHexDigitChar c = true :=
  output_fixed_width eSyn G.x 1 0 (encodePoint G) (by decide)

/-- Parity of the candidate point: for a nonnegative recovery id, whenever the
candidate of iteration `i` has `0 < y < p`, the parity of `y` agrees with the
parity of `yBit` — the flip step selects the right square root. -/
theorem candPoint_parity (r yBit : ℤ) (i : ℕ) (hy0 : 0 ≤ yBit)
    (hpos : 0 < (candPoint r yBit i).y) (hlt : (candPoint r yBit i).y < p) :
    (candPoint r yBit i).y % 2 = yBit % 2 := by
  simp only [candPoint] at hpos hlt ⊢
  have h0 : 0 ≤ a_exp_b_mod_c ((candX r i * candX r i * candX r i + 7) % p)
      ((p + 1) / 4) p := a_exp_b_mod_c_nonneg _ _ _
  have h1 : a_exp_b_mod_c ((candX r i * candX r i * candX r i + 7) % p)
      ((p + 1) / 4) p < p := a_exp_b_mod_c_lt_p _ _
  have ht1 : yBit.tmod 2 = yBit % 2 := Int.tmod_eq_emod hy0 (by norm_num)
  have ht2 : (a_exp_b_mod_c ((candX r i * candX r i * candX r i + 7) % p)
      ((p + 1) / 4) p).tmod 2 =
      a_exp_b_mod_c ((candX r i * candX r i * candX r i + 7) % p) ((p + 1) / 4) p % 2 :=
    Int.tmod_eq_emod h0 (by norm_num)
  have hpodd : p % 2 = 1 := by decide
  split_ifs at hpos hlt ⊢ with hpar
  · rw [ht1, ht2] at hpar
    omega
  · rw [ht1, ht2] at hpar
    omega

/-- C10: whenever the point recoverer accepts `R = (x, y)` with `0 < y < p`
(and the recovery id is in its nonnegative domain), the parity of `y` equals
the parity of `yBit`. -/
theorem accepted_point_parity (r yBit : ℤ) (R : ECPPoint)
    (hok : recoverR r yBit = .ok R) (hy0 : 0 ≤ yBit)
    (hpos : 0 < R.y) (hlt : R.y < p) :
    R.y % 2 = yBit % 2 := by
  rcases recoverR_ok_cases r yBit R hok with ⟨hR, _⟩ | ⟨hR, _⟩ <;> subst hR <;>
    exact candPoint_parity r yBit _ hy0 hpos hlt

set_option maxRecDepth 400000 in
/-- C10 witness: the parity property at `r = G.x`, `yBit = 0`, where the
recoverer accepts the generator itself (whose `y` is even). -/
theorem accepted_point_parity_witness :
    recoverR G.x 0 = .ok G ∧ G.y % 2 = 0 % 2 :=
  ⟨by decide, accepted_point_parity G.x 0 G (by decide) (by decide) (by decide) (by decide)⟩

/-- Base32 text whose 8 characters decode to exactly 5 bytes: the leading
5 bytes of the big-endian encoding of the synthetic digest `eSyn`. -/
def mhSyn : String := "S3A3VAIG"

/-- Base32 text decoding to exactly the 32 big-endian bytes of `G.x`. -/
def rB32 : String := "RG9GN9Z35U742XPANKK67B2MA6BJZ9G5FZHCTYK38KAXYFZ2C8NA"

/-- Base32 text decoding to the 32-byte big-endian encoding of 1. -/
def sB32 : String := "AAAAAAAAAAAAAAAAAAAAAAAAAAAAAAAAAAAAAAAAAAAAAAAAAAAS"

/-- One possible content of the uninitialized buffer tail: the remaining
27 bytes of `eSyn`, so that the decoded digest becomes exactly `eSyn`. -/
def junkSyn : ℕ → ℕ := fun i =>
  [35, 68, 83, 170, 95, 157, 106, 49, 120, 244, 247, 184, 18, 224, 11, 129,
   122, 119, 98, 101, 223, 221, 49, 185, 62, 41, 170].getD i 0

/-- Evaluation shape of the Base32 entry point: when all three decodes are
nonempty, it runs the core on the decoded integers. -/
theorem base32_entry_eval (jE jR jS : ℕ → ℕ) (mh rr ss : String) (yBit e r s : ℤ)
    (hm : ¬((base32DecodeBytes mh).length = 0))
    (hrr : ¬((base32DecodeBytes rr).length = 0))
    (hss : ¬((base32DecodeBytes ss).length = 0))
    (he : beDecode (buf32 (base32DecodeBytes mh) jE) = e)
    (hr : beDecode (buf32 (base32DecodeBytes rr) jR) = r)
    (hs : beDecode (buf32 (base32DecodeBytes ss) jS) = s) :
    recoverPubKeyFromSig_Base32 jE jR jS mh rr ss yBit =
      recoverPubKeyFromSig e r s yBit := by
  simp only [recoverPubKeyFromSig_Base32]
  rw [if_neg hm, if_neg hrr, if_neg hss, he, hr, hs]

set_option maxRecDepth 400000 in
/-- C9 counterexample: two invocations of the Base32 entry point with
identical textual inputs (`msgHash`, `sig_r`, `sig_s`, `yBit` all the same)
but different ambient contents of the uninitialized stack buffer return two
different successful outputs — the generator's encoding versus a different
key's encoding. The digest input decodes to only 5 bytes, so `Decode`
consumes 27 bytes the program never wrote, and the recovered key depends on
them: repeated calls of the real program need not agree. -/
theorem base32_ambient_memory_counterexample :
    recoverPubKeyFromSig_Base32 junkSyn (fun _ => 0) (fun _ => 0) mhSyn rB32 sB32 0 =
      .ok "79be667ef9dcbbac55a06295ce870b07029bfcdb2dce28d959f2815b16f81798483ada7726a3c4655da4fbfc0e1108a8fd17b448a68554199c47d08ffb10d4b8" ∧
    recoverPubKeyFromSig_Base32 (fun _ => 1) (fun _ => 1) (fun _ => 1) mhSyn rB32 sB32 0 =
      .ok "7c8a8b6c623a27a84d8e59b1a0f29d0cd88fdd0f9c53b79db376ee8f6888ab3bcbda533f3a5bcfb9d5c6b276068f8e1f97a92b1e1d0b8b415c2912d1968ea937" ∧
    ("79be667ef9dcbbac55a06295ce870b07029bfcdb2dce28d959f2815b16f81798483ada7726a3c4655da4fbfc0e1108a8fd17b448a68554199c47d08ffb10d4b8" : String) ≠
      "7c8a8b6c623a27a84d8e59b1a0f29d0cd88fdd0f9c53b79db376ee8f6888ab3bcbda533f3a5bcfb9d5c6b276068f8e1f97a92b1e1d0b8b415c2912d1968ea937" := by
  refine ⟨?_, ?_, by decide⟩
  · rw [base32_entry_eval junkSyn (fun _ => 0) (fun _ => 0) mhSyn rB32 sB32 0
      60725826215038851753992266113519373526586960825297310207104975781129044765098
      55066263022277343669578718895168534326250603453777594175500187360389116729240 1
      (by decide) (by decide) (by decide) (by decide) (by decide) (by decide)]
    decide
  · rw [base32_entry_eval (fun _ => 1) (fun _ => 1) (fun _ => 1) mhSyn rB32 sB32 0
      60725826215024756781530798334037054807896275703446161297806276164054287450369
      55066263022277343669578718895168534326250603453777594175500187360389116729240 1
      (by decide) (by decide) (by decide) (by decide) (by decide) (by decide)]
    decide

/-- C9 amended: the core integer operation and the textual entry point are
deterministic — identical inputs always yield identical results. The Base32
entry point is deterministic only as a function of the decoded buffers: when
each of the three inputs decodes to exactly 32 bytes, its result does not
depend on the ambient memory oracles; when an input decodes shorter, the
result can also depend on the uninitialized buffer contents. -/
theorem recover_deterministic_amended :
    (∀ e r s yBit e2 r2 s2 yBit2 : ℤ, (e, r, s, yBit) = (e2, r2, s2, yBit2) →
      recoverPubKeyFromSig e r s yBit = recoverPubKeyFromSig e2 r2 s2 yBit2) ∧
    (∀ (mh rr ss : String) (yBit : ℤ) (mh2 rr2 ss2 : String) (yBit2 : ℤ),
      (mh, rr, ss, yBit) = (mh2, rr2, ss2, yBit2) →
      recoverPubKeyFromSigStr mh rr ss yBit = recoverPubKeyFromSigStr mh2 rr2 ss2 yBit2) ∧
    (∀ jE jR jS jE2 jR2 jS2 : ℕ → ℕ, ∀ (mh rr ss : String) (yBit : ℤ),
      (base32DecodeBytes mh).length = 32 → (base32DecodeBytes rr).length = 32 →
      (base32DecodeBytes ss).length = 32 →
      recoverPubKeyFromSig_Base32 jE jR jS mh rr ss yBit =
        recoverPubKeyFromSig_Base32 jE2 jR2 jS2 mh rr ss yBit) := by
  refine ⟨?_, ?_, ?_⟩
  · intro e r s yBit e2 r2 s2 yBit2 hin
    obtain ⟨h1, h2, h3, h4⟩ : e = e2 ∧ r = r2 ∧ s = s2 ∧ yBit = yBit2 := by
      simpa [Prod.ext_iff] using hin
    subst h1; subst h2; subst h3; subst h4; rfl
  · intro mh rr ss yBit mh2 rr2 ss2 yBit2 hin
    obtain ⟨h1, h2, h3, h4⟩ : mh = mh2 ∧ rr = rr2 ∧ ss = ss2 ∧ yBit = yBit2 := by
      simpa [Prod.ext_iff] using hin
    subst h1; subst h2; subst h3; subst h4; rfl
  · intro jE jR jS jE2 jR2 jS2 mh rr ss yBit h1 h2 h3
    simp only [recoverPubKeyFromSig_Base32]
    rw [buf32_full _ jE h1, buf32_full _ jE2 h1, buf32_full _ jR h2, buf32_full _ jR2 h2,
        buf32_full _ jS h3, buf32_full _ jS2 h3]

/-- C9 amended, witness: with all three inputs decoding to exactly 32 bytes,
two Base32 invocations with different memory oracles agree. -/
theorem recover_deterministic_amended_witness :
    recoverPubKeyFromSig_Base32 (fun _ => 17) (fun _ => 34) (fun _ => 51) a52 a52 a52 0 =
      recoverPubKeyFromSig_Base32 (fun _ => 0) (fun _ => 0) (fun _ => 0) a52 a52 a52 0 :=
  recover_deterministic_amended.2.2 (fun _ => 17) (fun _ => 34) (fun _ => 51)
    (fun _ => 0) (fun _ => 0) (fun _ => 0) a52 a52 a52 0
    (by decide) (by decide) (by decide)

end ECDSARecover
